import Mathlib

/-!
Verification development for the codex MCP server repository.

The definitions below are shallow embeddings of the repository's source
files into Lean:

* `TokenUtils` embeds `src/token-utils.ts` (`estimateTokens`,
  `chunkResponse`, `breakAtWordBoundary`).  JS strings are modelled as
  `List Char` (one element per UTF-16 code unit; `.length` and `.slice`
  act on that sequence).  `Math.ceil(characters / 3.5)` is modelled as
  `(2 * characters + 6) / 7` and `Math.floor(maxTokens * 3.5)` as
  `7 * maxTokens / 2`: both JS expressions are exact in double precision
  for all realistic magnitudes, so the rational arithmetic agrees.
* `ConsultCache` embeds the response-cache branch of `handleConsultCodex`
  in the server entry point (`index.ts`, session-manager variant).
* `SessionMgr` embeds `session-manager.ts` (`SessionManager`): the two
  insertion-ordered maps (`sessions`, `sessionInfo`), `createSession`,
  `destroySession`, `getAllSessions`, `cleanupOldestSession`.  `new Date()`
  timestamps are modelled by a logical clock drawn from a counter that
  strictly increases, and the filesystem-dependent `generateWorkspaceId`
  is passed in as a function parameter.  The outcome of the awaited
  external call `process.start()` is passed in as an `Except` parameter,
  the standard oracle embedding of an async call into the OS.
* `ProcSend` embeds the dispatch discipline of `CodexProcess.send`
  (`codex-process-simple.ts`) together with `SessionManager.sendCommand`
  as a labelled transition system over the event-loop interleavings.
* `ProcRestart` embeds `CodexProcess.restart` of the same class
  (identical in the exec-based `codex-process.ts` variant).
-/

namespace TokenUtils

/-- Embeds the `TokenEstimate` interface of `token-utils.ts`. -/
structure TokenEstimate where
  characters : Nat
  estimatedTokens : Nat
  isOverLimit : Bool
deriving Repr, DecidableEq

/-- Embeds `estimateTokens` of `token-utils.ts`:
`estimatedTokens = Math.ceil(characters / 3.5)` (here `(2c + 6) / 7`),
`isOverLimit = estimatedTokens > 20000`. -/
def estimateTokens (text : List Char) : TokenEstimate :=
  let characters := text.length
  let estimatedTokens := (2 * characters + 6) / 7
  { characters := characters
    estimatedTokens := estimatedTokens
    isOverLimit := decide (estimatedTokens > 20000) }

/-- Embeds the `ResponseChunk` interface of `token-utils.ts`. -/
structure ResponseChunk where
  content : List Char
  chunkIndex : Nat
  totalChunks : Nat
  tokenEstimate : TokenEstimate
  hasMore : Bool
deriving Repr, DecidableEq

/-- Embeds JS `String.prototype.lastIndexOf(ch, fromIdx)`: the greatest
index `i ≤ fromIdx` with `t[i] = ch`, searching downward, `-1` if none
(indices beyond the end of the string are skipped, as in JS where the
start position is clamped to `length - 1`). -/
def lastIndexOf (t : List Char) (ch : Char) : Nat → Int
  | 0 => if 0 < t.length ∧ t.getD 0 ' ' = ch then 0 else -1
  | i + 1 =>
    if i + 1 < t.length ∧ t.getD (i + 1) ' ' = ch then ((i : Int) + 1)
    else lastIndexOf t ch i

/-- Embeds `breakAtWordBoundary(text, maxLength)` of `token-utils.ts`.
`Math.floor(maxLength * 0.1)` is modelled as `maxLength / 10`. -/
def breakAtWordBoundary (text : List Char) (maxLength : Nat) : List Char :=
  if text.length ≤ maxLength then text
  else
    let searchRange := min 200 (maxLength / 10)
    let cutPoint : Int := (maxLength : Int) - searchRange
    let lastSpace := lastIndexOf text ' ' maxLength
    let lastNewline := lastIndexOf text '\n' maxLength
    let lastPunct :=
      max (max (lastIndexOf text '.' maxLength) (lastIndexOf text '!' maxLength))
        (max (lastIndexOf text '?' maxLength) (lastIndexOf text ';' maxLength))
    let breakPoint := max (max lastSpace lastNewline) lastPunct
    if breakPoint > cutPoint then text.take breakPoint.toNat
    else text.take maxLength ++ ['.', '.', '.']

/-- Embeds `chunkResponse(text, maxTokensPerChunk, requestedPage)` of
`token-utils.ts`.  The requested page is a JS number that the callers may
pass as any integer, hence `Int`.  `Math.ceil(text.length / maxChars)` is
`(len + m - 1) / m`; the tool schema enforces `maxTokensPerChunk ≥ 5000`,
and every theorem below assumes at least `1 ≤ maxTokensPerChunk`, so the
JS division-by-zero (`Infinity`) case is outside the modelled domain. -/
def chunkResponse (text : List Char) (maxTokensPerChunk : Nat) (requestedPage : Int) :
    ResponseChunk :=
  let estimate := estimateTokens text
  if !estimate.isOverLimit then
    { content := text
      chunkIndex := 1
      totalChunks := 1
      tokenEstimate := estimate
      hasMore := false }
  else
    let maxCharsPerChunk := 7 * maxTokensPerChunk / 2
    let totalChunks := (text.length + maxCharsPerChunk - 1) / maxCharsPerChunk
    let pageNum : Nat := (max 1 (min requestedPage (totalChunks : Int))).toNat
    let startIndex := (pageNum - 1) * maxCharsPerChunk
    let endIndex := min (startIndex + maxCharsPerChunk) text.length
    let chunkContent := (text.drop startIndex).take (endIndex - startIndex)
    let cleanContent :=
      if pageNum < totalChunks then breakAtWordBoundary chunkContent maxCharsPerChunk
      else chunkContent
    { content := cleanContent
      chunkIndex := pageNum
      totalChunks := totalChunks
      tokenEstimate := estimateTokens cleanContent
      hasMore := decide (pageNum < totalChunks) }

/-- The slice `chunkResponse` extracts for the requested page before the
`breakAtWordBoundary` adjustment step: the same computation with the
adjustment call removed.  Comparing `chunkResponse` against this function
makes the (non-)effect of the adjustment step explicit. -/
def rawChunk (text : List Char) (maxTokensPerChunk : Nat) (requestedPage : Int) :
    List Char :=
  let estimate := estimateTokens text
  if !estimate.isOverLimit then text
  else
    let maxCharsPerChunk := 7 * maxTokensPerChunk / 2
    let totalChunks := (text.length + maxCharsPerChunk - 1) / maxCharsPerChunk
    let pageNum : Nat := (max 1 (min requestedPage (totalChunks : Int))).toNat
    let startIndex := (pageNum - 1) * maxCharsPerChunk
    let endIndex := min (startIndex + maxCharsPerChunk) text.length
    (text.drop startIndex).take (endIndex - startIndex)

/-- Whether the hard-cut fallback branch of `breakAtWordBoundary` would
fire for the page `chunkResponse` returns: the adjustment is attempted
(non-final page), the chunk exceeds the length cap, and no break point
lies inside the lookback window. -/
def hardCutUsed (text : List Char) (maxTokensPerChunk : Nat) (requestedPage : Int) :
    Bool :=
  let estimate := estimateTokens text
  if !estimate.isOverLimit then false
  else
    let maxCharsPerChunk := 7 * maxTokensPerChunk / 2
    let totalChunks := (text.length + maxCharsPerChunk - 1) / maxCharsPerChunk
    let pageNum : Nat := (max 1 (min requestedPage (totalChunks : Int))).toNat
    let startIndex := (pageNum - 1) * maxCharsPerChunk
    let endIndex := min (startIndex + maxCharsPerChunk) text.length
    let chunkContent := (text.drop startIndex).take (endIndex - startIndex)
    if pageNum < totalChunks then
      if chunkContent.length ≤ maxCharsPerChunk then false
      else
        let searchRange := min 200 (maxCharsPerChunk / 10)
        let cutPoint : Int := (maxCharsPerChunk : Int) - searchRange
        let lastSpace := lastIndexOf chunkContent ' ' maxCharsPerChunk
        let lastNewline := lastIndexOf chunkContent '\n' maxCharsPerChunk
        let lastPunct :=
          max (max (lastIndexOf chunkContent '.' maxCharsPerChunk)
              (lastIndexOf chunkContent '!' maxCharsPerChunk))
            (max (lastIndexOf chunkContent '?' maxCharsPerChunk)
              (lastIndexOf chunkContent ';' maxCharsPerChunk))
        decide (¬ max (max lastSpace lastNewline) lastPunct > cutPoint)
    else false

/-- Total page count of the paginated text, read off the returned chunk. -/
def totalPagesOf (text : List Char) (maxTokensPerChunk : Nat) : Nat :=
  (chunkResponse text maxTokensPerChunk 1).totalChunks

/-- Re-assembling all pages in order: the concatenation of the `content`
fields of pages `1, …, totalPages`. -/
def joinPages (text : List Char) (maxTokensPerChunk : Nat) : List Char :=
  (List.range (totalPagesOf text maxTokensPerChunk)).flatMap
    fun i => (chunkResponse text maxTokensPerChunk ((i : Int) + 1)).content

theorem breakAtWordBoundary_of_le {t : List Char} {m : Nat} (h : t.length ≤ m) :
    breakAtWordBoundary t m = t := by
  unfold breakAtWordBoundary
  simp [h]

theorem chunk_slice_length_le (text : List Char) (s m : Nat) :
    ((text.drop s).take (min (s + m) text.length - s)).length ≤ m := by
  have h1 : ((text.drop s).take (min (s + m) text.length - s)).length
      ≤ min (s + m) text.length - s := List.length_take_le _ _
  omega

/-- Shared helper: the `breakAtWordBoundary` call inside `chunkResponse`
receives a chunk whose length never exceeds `maxCharsPerChunk`, so its
early-return guard always fires and the content returned is exactly the
raw slice. -/
theorem chunkResponse_content_eq_rawChunk (text : List Char) (b : Nat) (p : Int) :
    (chunkResponse text b p).content = rawChunk text b p := by
  unfold chunkResponse rawChunk
  by_cases hover : (estimateTokens text).isOverLimit
  · simp only [hover, Bool.not_true, if_neg (by simp : ¬ (false = true))]
    set m := 7 * b / 2 with hm
    set N := (text.length + m - 1) / m with hN
    set pageNum : Nat := (max 1 (min p (N : Int))).toNat with hp
    set s := (pageNum - 1) * m with hs
    by_cases hlast : pageNum < N
    · simp only [if_pos hlast]
      exact breakAtWordBoundary_of_le (chunk_slice_length_le text s m)
    · simp [hlast]
  · simp [hover]

/-- Shared helper: when the token estimate is not over the fixed limit,
`chunkResponse` returns the whole text as page 1 of 1, whatever the
requested page and per-page budget are. -/
theorem chunkResponse_of_not_over {text : List Char} (b : Nat) (p : Int)
    (h : (estimateTokens text).isOverLimit = false) :
    chunkResponse text b p =
      { content := text
        chunkIndex := 1
        totalChunks := 1
        tokenEstimate := estimateTokens text
        hasMore := false } := by
  unfold chunkResponse
  simp [h]

/-- Shared helper: in the over-limit branch the page count is
`⌈length / maxCharsPerChunk⌉`, independent of the requested page. -/
theorem chunkResponse_totalChunks_of_over {text : List Char} (b : Nat) (p : Int)
    (h : (estimateTokens text).isOverLimit = true) :
    (chunkResponse text b p).totalChunks =
      (text.length + 7 * b / 2 - 1) / (7 * b / 2) := by
  unfold chunkResponse
  simp [h]

/-- Shared helper: in the over-limit branch the returned page index is the
requested page clamped into `[1, totalChunks]`. -/
theorem chunkResponse_chunkIndex_of_over {text : List Char} (b : Nat) (p : Int)
    (h : (estimateTokens text).isOverLimit = true) :
    (chunkResponse text b p).chunkIndex =
      (max 1 (min p (((text.length + 7 * b / 2 - 1) / (7 * b / 2) : Nat) : Int))).toNat := by
  unfold chunkResponse
  simp [h]

/-- Shared helper: `chunkResponse` depends on the requested page only
through the clamped page number. -/
theorem chunkResponse_eq_of_clamp_eq {text : List Char} (b : Nat) (p q : Int)
    (h : (max 1 (min p (((text.length + 7 * b / 2 - 1) / (7 * b / 2) : Nat) : Int)))
       = (max 1 (min q (((text.length + 7 * b / 2 - 1) / (7 * b / 2) : Nat) : Int)))) :
    chunkResponse text b p = chunkResponse text b q := by
  unfold chunkResponse
  by_cases hover : (estimateTokens text).isOverLimit
  · simp only [hover, h]
  · simp [hover]

/-- Shared helper: in the over-limit branch, a requested page already in
`[1, totalChunks]` is served as the `maxCharsPerChunk`-sized slice
starting at `(page − 1) · maxCharsPerChunk`. -/
theorem chunkResponse_content_of_over {text : List Char} (b : Nat) (p : Nat)
    (hover : (estimateTokens text).isOverLimit = true) (hp1 : 1 ≤ p)
    (hpN : p ≤ (text.length + 7 * b / 2 - 1) / (7 * b / 2)) :
    (chunkResponse text b (p : Int)).content =
      (text.drop ((p - 1) * (7 * b / 2))).take (7 * b / 2) := by
  rw [chunkResponse_content_eq_rawChunk]
  unfold rawChunk
  simp only [hover, Bool.not_true, if_neg (by simp : ¬ (false = true))]
  set m := 7 * b / 2 with hm
  set N := (text.length + m - 1) / m with hN
  have hclamp : (max 1 (min (p : Int) (N : Int))).toNat = p := by
    have : min (p : Int) (N : Int) = (p : Int) := by
      exact min_eq_left (by exact_mod_cast hpN)
    rw [this]
    have : max 1 (p : Int) = (p : Int) := max_eq_right (by exact_mod_cast hp1)
    rw [this]
    exact Int.toNat_natCast p
  rw [hclamp]
  set s := (p - 1) * m with hs
  apply List.take_eq_take.mpr
  have hdroplen : (text.drop s).length = text.length - s := List.length_drop s text
  omega

/-- Shared helper: concatenating the `m`-sized slices of `l` taken at
offsets `0, m, 2m, …, (N−1)m` yields the first `N·m` elements of `l`. -/
theorem flatMap_drop_take (l : List Char) (m : Nat) :
    ∀ N : Nat, (List.range N).flatMap (fun i => (l.drop (i * m)).take m) = l.take (N * m) := by
  intro N
  induction N with
  | zero => simp
  | succ n ih =>
    rw [List.range_succ, List.flatMap_append, ih]
    simp only [List.flatMap_cons, List.flatMap_nil, List.append_nil]
    rw [Nat.succ_mul, List.take_add]

/-- Shared helper: `isOverLimit` unfolded to its arithmetic form. -/
theorem estimateTokens_isOverLimit (text : List Char) :
    (estimateTokens text).isOverLimit = decide ((2 * text.length + 6) / 7 > 20000) := rfl

/-- Shared helper: when the text is not over the fixed limit, the hard-cut
fallback is never used (the single-page branch performs no cutting). -/
theorem hardCutUsed_of_not_over {text : List Char} (b : Nat) (p : Int)
    (h : (estimateTokens text).isOverLimit = false) :
    hardCutUsed text b p = false := by
  unfold hardCutUsed
  simp [h]

/-- Shared helper: the hard-cut fallback of `breakAtWordBoundary` can
never fire from `chunkResponse`, because the extracted chunk never
exceeds `maxCharsPerChunk`. -/
theorem hardCutUsed_eq_false (text : List Char) (b : Nat) (p : Int) :
    hardCutUsed text b p = false := by
  unfold hardCutUsed
  by_cases hover : (estimateTokens text).isOverLimit
  · simp only [hover, Bool.not_true, if_neg (by simp : ¬ (false = true))]
    set m := 7 * b / 2 with hm
    set N := (text.length + m - 1) / m with hN
    set pageNum : Nat := (max 1 (min p (N : Int))).toNat with hp
    set s := (pageNum - 1) * m with hs
    by_cases hlast : pageNum < N
    · rw [if_pos hlast, if_pos (chunk_slice_length_le text s m)]
    · simp [hlast]
  · simp [hover]

end TokenUtils

namespace TokenUtils

/-- Claim C5 (status `code_bug`, supporting theorem): for every text,
budget and requested page, the content `chunkResponse` returns is exactly
the raw character slice, and the hard-cut fallback is never used: the
`breakAtWordBoundary` adjustment promised by the claim (back up to the
nearest whitespace/sentence-punctuation boundary within the lookback
window, else hard cut with a truncation marker) never takes effect,
because the slice handed to it never exceeds the `maxLength` it is given,
so its early-return guard always fires. -/
theorem claim_c5_content_is_raw_slice (text : List Char) (b : Nat) (p : Int) :
    (chunkResponse text b p).content = rawChunk text b p ∧
      hardCutUsed text b p = false :=
  ⟨chunkResponse_content_eq_rawChunk text b p, hardCutUsed_eq_false text b p⟩

/-- Claim C4 counterexample: a 35000-character text has a token estimate
of 10000, which exceeds a per-page budget of `maxTokensPerPage = 5000`,
yet `chunkResponse` still returns the entire text as page 1 of 1 — the
single-page decision compares the estimate against the fixed 20000-token
threshold, not against `maxTokensPerPage`. -/
theorem claim_c4_counterexample :
    (estimateTokens (List.replicate 35000 'a')).estimatedTokens = 10000 ∧
      10000 > 5000 ∧
      (chunkResponse (List.replicate 35000 'a') 5000 1).totalChunks = 1 ∧
      (chunkResponse (List.replicate 35000 'a') 5000 1).content =
        List.replicate 35000 'a' := by
  have hest : estimateTokens (List.replicate 35000 'a') =
      { characters := 35000, estimatedTokens := 10000, isOverLimit := false } := by
    unfold estimateTokens
    simp only [List.length_replicate]
    norm_num
  have hchunk := @chunkResponse_of_not_over (List.replicate 35000 'a') 5000 1
    (by rw [hest])
  refine ⟨by rw [hest], by norm_num, ?_, ?_⟩
  · rw [hchunk]
  · rw [hchunk]

/-- Claim C4 (status `corrected`, amended): pagination returns the entire
text as page 1 of 1 exactly when the token estimate is at most the fixed
20000-token over-limit threshold — independently of `maxTokensPerPage`;
when the estimate exceeds that threshold the page count is
`⌈length / ⌊3.5 · maxTokensPerPage⌋⌉` (which can still be 1 for large
budgets).  The budget bound `1 ≤ b` keeps the model inside the domain
where the JS division is finite (the tool schema enforces `b ≥ 5000`). -/
theorem claim_c4_single_page_iff_fixed_threshold (text : List Char) (b : Nat) (p : Int)
    (hb : 1 ≤ b) :
    ((estimateTokens text).isOverLimit = false →
      chunkResponse text b p =
        { content := text
          chunkIndex := 1
          totalChunks := 1
          tokenEstimate := estimateTokens text
          hasMore := false }) ∧
    ((estimateTokens text).isOverLimit = true →
      (chunkResponse text b p).totalChunks =
        (text.length + 7 * b / 2 - 1) / (7 * b / 2)) := by
  exact ⟨fun h => chunkResponse_of_not_over b p h,
    fun h => chunkResponse_totalChunks_of_over b p h⟩

/-- Witness for C4's amended theorem at a concrete input. -/
theorem claim_c4_witness :
    chunkResponse (List.replicate 3 'a') 5000 1 =
      { content := List.replicate 3 'a'
        chunkIndex := 1
        totalChunks := 1
        tokenEstimate := estimateTokens (List.replicate 3 'a')
        hasMore := false } :=
  (claim_c4_single_page_iff_fixed_threshold (List.replicate 3 'a') 5000 1
    (by norm_num)).1 (by decide)

/-- Shared helper: the total page count of an over-limit text. -/
theorem totalPagesOf_of_over {text : List Char} (b : Nat)
    (h : (estimateTokens text).isOverLimit = true) :
    totalPagesOf text b = (text.length + 7 * b / 2 - 1) / (7 * b / 2) := by
  unfold totalPagesOf
  exact chunkResponse_totalChunks_of_over b 1 h

/-- Shared helper: an over-limit text has at least 70001 characters. -/
theorem length_ge_of_over {text : List Char}
    (h : (estimateTokens text).isOverLimit = true) : 70001 ≤ text.length := by
  rw [estimateTokens_isOverLimit] at h
  have h2 := of_decide_eq_true h
  omega

/-- Claim C8 (status `confirmed`): for every oversized text (over the
fixed token limit) and positive budget, requesting page 0 or a negative
page yields exactly the result of requesting page 1, and requesting a
page at or beyond the total page count yields exactly the result of
requesting the last page; the returned page index is clamped
accordingly. -/
theorem claim_c8_page_clamping (text : List Char) (b : Nat) (p : Int)
    (hover : (estimateTokens text).isOverLimit = true) (hb : 1 ≤ b) :
    (p ≤ 0 →
      chunkResponse text b p = chunkResponse text b 1 ∧
        (chunkResponse text b p).chunkIndex = 1) ∧
    (((totalPagesOf text b : Nat) : Int) ≤ p →
      chunkResponse text b p = chunkResponse text b ((totalPagesOf text b : Nat) : Int) ∧
        (chunkResponse text b p).chunkIndex = totalPagesOf text b) := by
  have hlen := length_ge_of_over hover
  have hm : 0 < 7 * b / 2 := by omega
  have hN1 : 1 ≤ (text.length + 7 * b / 2 - 1) / (7 * b / 2) :=
    (Nat.one_le_div_iff hm).mpr (by omega)
  have hNtot : totalPagesOf text b = (text.length + 7 * b / 2 - 1) / (7 * b / 2) :=
    chunkResponse_totalChunks_of_over b 1 hover
  constructor
  · intro hp
    have hclamp :
        (max 1 (min p (((text.length + 7 * b / 2 - 1) / (7 * b / 2) : Nat) : Int)))
          = (max 1 (min 1 (((text.length + 7 * b / 2 - 1) / (7 * b / 2) : Nat) : Int))) := by
      have hN1' : (1 : Int) ≤ (((text.length + 7 * b / 2 - 1) / (7 * b / 2) : Nat) : Int) := by
        exact_mod_cast hN1
      rw [min_eq_left (le_trans hp (by omega)), min_eq_left hN1',
        max_eq_left (le_trans hp (by omega)), max_self]
    refine ⟨chunkResponse_eq_of_clamp_eq b p 1 hclamp, ?_⟩
    rw [chunkResponse_chunkIndex_of_over b p hover, hclamp]
    have hN1' : (1 : Int) ≤ (((text.length + 7 * b / 2 - 1) / (7 * b / 2) : Nat) : Int) := by
      exact_mod_cast hN1
    rw [min_eq_left hN1', max_self]
    rfl
  · intro hp
    rw [hNtot] at hp
    have hclamp :
        (max 1 (min p (((text.length + 7 * b / 2 - 1) / (7 * b / 2) : Nat) : Int)))
          = (max 1 (min ((totalPagesOf text b : Nat) : Int)
              (((text.length + 7 * b / 2 - 1) / (7 * b / 2) : Nat) : Int))) := by
      rw [hNtot, min_eq_right hp, min_self]
    refine ⟨chunkResponse_eq_of_clamp_eq b p _ hclamp, ?_⟩
    rw [chunkResponse_chunkIndex_of_over b p hover, hclamp, hNtot, min_self,
      max_eq_right (by exact_mod_cast hN1)]
    exact Int.toNat_natCast _

/-- Witness for C8 at a concrete oversized input (70001 characters,
budget 5000, hence 5 pages): page −3 is served as page 1 and page 99 as
the last page. -/
theorem claim_c8_witness :
    chunkResponse (List.replicate 70001 'a') 5000 (-3)
        = chunkResponse (List.replicate 70001 'a') 5000 1 ∧
      chunkResponse (List.replicate 70001 'a') 5000 99
        = chunkResponse (List.replicate 70001 'a') 5000
            ((totalPagesOf (List.replicate 70001 'a') 5000 : Nat) : Int) := by
  have hover : (estimateTokens (List.replicate 70001 'a')).isOverLimit = true := by
    rw [estimateTokens_isOverLimit, List.length_replicate]
    decide
  have hN : totalPagesOf (List.replicate 70001 'a') 5000 = 5 := by
    rw [totalPagesOf_of_over 5000 hover, List.length_replicate]
  refine ⟨((claim_c8_page_clamping (List.replicate 70001 'a') 5000 (-3) hover
      (by norm_num)).1 (by norm_num)).1,
    ((claim_c8_page_clamping (List.replicate 70001 'a') 5000 99 hover
      (by norm_num)).2 ?_).1⟩
  rw [hN]
  norm_num

/-- Claim C3 (status `confirmed`): re-assembling all pages of
`chunkResponse` in order reproduces the original text exactly whenever no
hard-cut fallback was used on any page (in fact the fallback can never be
used, see the C5 analysis, so the hypothesis is always dischargeable). -/
theorem claim_c3_roundtrip (text : List Char) (b : Nat) (hb : 1 ≤ b)
    (hnc : ∀ p : Nat, 1 ≤ p → p ≤ totalPagesOf text b →
      hardCutUsed text b (p : Int) = false) :
    joinPages text b = text := by
  by_cases hover : (estimateTokens text).isOverLimit
  · have hm : 0 < 7 * b / 2 := by omega
    have hN : totalPagesOf text b = (text.length + 7 * b / 2 - 1) / (7 * b / 2) :=
      chunkResponse_totalChunks_of_over b 1 hover
    unfold joinPages
    rw [hN]
    have hcontent : ∀ i ∈ List.range ((text.length + 7 * b / 2 - 1) / (7 * b / 2)),
        (chunkResponse text b ((i : Int) + 1)).content
          = (text.drop (i * (7 * b / 2))).take (7 * b / 2) := by
      intro i hi
      rw [List.mem_range] at hi
      have h1 : ((i : Int) + 1) = (((i + 1 : Nat)) : Int) := by push_cast; ring
      rw [h1, chunkResponse_content_of_over b (i + 1) hover (by omega) (by omega)]
      simp
    rw [List.flatMap_def, List.map_congr_left hcontent, ← List.flatMap_def,
      flatMap_drop_take]
    apply List.take_of_length_le
    have h1 := Nat.div_add_mod (text.length + 7 * b / 2 - 1) (7 * b / 2)
    have h2 := Nat.mod_lt (text.length + 7 * b / 2 - 1) hm
    have h3 : (text.length + 7 * b / 2 - 1) / (7 * b / 2) * (7 * b / 2)
        = 7 * b / 2 * ((text.length + 7 * b / 2 - 1) / (7 * b / 2)) :=
      Nat.mul_comm _ _
    omega
  · have hfalse : (estimateTokens text).isOverLimit = false :=
      Bool.not_eq_true _ ▸ eq_false_of_ne_true hover
    have h1 : totalPagesOf text b = 1 := by
      rw [show totalPagesOf text b = (chunkResponse text b 1).totalChunks from rfl,
        chunkResponse_of_not_over b 1 hfalse]
    unfold joinPages
    rw [h1]
    simp only [List.range_succ, List.range_zero, List.nil_append, List.flatMap_cons,
      List.flatMap_nil, List.append_nil, Nat.cast_zero, zero_add]
    rw [chunkResponse_of_not_over b 1 hfalse]

/-- Witness for C3 at a concrete input. -/
theorem claim_c3_witness : joinPages (List.replicate 3 'a') 5000 = List.replicate 3 'a' :=
  claim_c3_roundtrip (List.replicate 3 'a') 5000 (by norm_num)
    (fun p _ _ => hardCutUsed_of_not_over 5000 (p : Int) (by decide))

end TokenUtils

namespace JsMap

/-- A JS `Map` with string keys, modelled as an insertion-ordered
association list (keys are pairwise distinct under the operations below,
as in JS `Map`).  `lookup` models `Map.prototype.get` (first matching
key). -/
def lookup : List (String × α) → String → Option α
  | [], _ => none
  | e :: t, k => if e.1 = k then some e.2 else lookup t k

/-- JS `Map.prototype.has`. -/
def hasKey (m : List (String × α)) (k : String) : Bool :=
  m.any (fun e => decide (e.1 = k))

/-- JS `Map.prototype.set`: replaces in place when the key is present
(keeping insertion order), otherwise appends. -/
def set (m : List (String × α)) (k : String) (v : α) : List (String × α) :=
  if hasKey m k then m.map (fun e => if e.1 = k then (k, v) else e)
  else m ++ [(k, v)]

/-- JS `Map.prototype.delete`: removes the entry with the given key,
keeping the order of the remaining entries. -/
def erase : List (String × α) → String → List (String × α)
  | [], _ => []
  | e :: t, k => if e.1 = k then erase t k else e :: erase t k

theorem lookup_erase_self (m : List (String × α)) (k : String) :
    lookup (erase m k) k = none := by
  induction m with
  | nil => rfl
  | cons e t ih =>
    rw [erase]
    by_cases h : e.1 = k
    · rw [if_pos h]
      exact ih
    · rw [if_neg h, lookup, if_neg h]
      exact ih

theorem lookup_erase_ne (m : List (String × α)) (k k' : String)
    (h : k' ≠ k) : lookup (erase m k) k' = lookup m k' := by
  induction m with
  | nil => rfl
  | cons e t ih =>
    rw [erase]
    by_cases he : e.1 = k
    · rw [if_pos he, lookup, if_neg (fun hek => h ((he ▸ hek : (k : String) = k')).symm)]
      exact ih
    · rw [if_neg he, lookup, lookup]
      by_cases he' : e.1 = k'
      · rw [if_pos he', if_pos he']
      · rw [if_neg he', if_neg he']
        exact ih

theorem lookup_eq_none_of_not_mem {m : List (String × α)} {k : String}
    (h : k ∉ m.map (·.1)) : lookup m k = none := by
  induction m with
  | nil => rfl
  | cons e t ih =>
    simp only [List.map_cons, List.mem_cons, not_or] at h
    rw [lookup, if_neg (fun he => h.1 he.symm)]
    exact ih h.2

theorem mem_keys_of_lookup_isSome {m : List (String × α)} {k : String}
    (h : (lookup m k).isSome) : k ∈ m.map (·.1) := by
  by_contra hmem
  rw [lookup_eq_none_of_not_mem hmem] at h
  simp at h

theorem lookup_mapReplace_self (m : List (String × α)) (k : String) (v : α)
    (h : hasKey m k = true) :
    lookup (m.map (fun e => if e.1 = k then (k, v) else e)) k = some v := by
  induction m with
  | nil => simp [hasKey] at h
  | cons e t ih =>
    rw [List.map_cons]
    by_cases he : e.1 = k
    · rw [if_pos he, lookup, if_pos rfl]
    · rw [if_neg he, lookup, if_neg he]
      apply ih
      unfold hasKey at h ⊢
      simpa [List.any_cons, decide_eq_false he] using h

theorem lookup_mapReplace_ne (m : List (String × α)) (k k' : String) (v : α)
    (h : k' ≠ k) :
    lookup (m.map (fun e => if e.1 = k then (k, v) else e)) k' = lookup m k' := by
  induction m with
  | nil => rfl
  | cons e t ih =>
    rw [List.map_cons]
    by_cases he : e.1 = k
    · rw [if_pos he, lookup, lookup, if_neg (fun hkk => h hkk.symm),
        if_neg (fun hek => h ((he ▸ hek : (k : String) = k')).symm)]
      exact ih
    · rw [if_neg he, lookup, lookup]
      by_cases he' : e.1 = k'
      · rw [if_pos he', if_pos he']
      · rw [if_neg he', if_neg he']
        exact ih

theorem lookup_append_single_self (m : List (String × α)) (k : String) (v : α) :
    lookup (m ++ [(k, v)]) k = some v ∨ (lookup m k).isSome := by
  induction m with
  | nil => left; rw [List.nil_append, lookup, if_pos rfl]
  | cons e t ih =>
    rw [List.cons_append, lookup, lookup]
    by_cases he : e.1 = k
    · right; rw [if_pos he]; rfl
    · rw [if_neg he, if_neg he]
      exact ih

theorem lookup_append_single_self_of_not (m : List (String × α)) (k : String) (v : α)
    (h : lookup m k = none) : lookup (m ++ [(k, v)]) k = some v := by
  rcases lookup_append_single_self m k v with h1 | h1
  · exact h1
  · rw [h] at h1
    simp at h1

theorem lookup_append_single_ne (m : List (String × α)) (k k' : String) (v : α)
    (h : k' ≠ k) : lookup (m ++ [(k, v)]) k' = lookup m k' := by
  induction m with
  | nil =>
    have hrfl : lookup [(k, v)] k' = if k = k' then some v else none := rfl
    rw [List.nil_append, hrfl, if_neg (fun hkk => h hkk.symm)]
    rfl
  | cons e t ih =>
    rw [List.cons_append, lookup, lookup]
    by_cases he' : e.1 = k'
    · rw [if_pos he', if_pos he']
    · rw [if_neg he', if_neg he']
      exact ih

theorem hasKey_false_of_lookup_none {m : List (String × α)} {k : String}
    (h : lookup m k = none) : hasKey m k = false := by
  induction m with
  | nil => rfl
  | cons e t ih =>
    rw [lookup] at h
    by_cases he : e.1 = k
    · rw [if_pos he] at h
      exact absurd h (by simp)
    · rw [if_neg he] at h
      unfold hasKey at ih ⊢
      simp [List.any_cons, decide_eq_false he, ih h]

theorem lookup_set_self (m : List (String × α)) (k : String) (v : α) :
    lookup (set m k v) k = some v := by
  unfold set
  by_cases h : hasKey m k
  · rw [if_pos h]
    exact lookup_mapReplace_self m k v h
  · rw [if_neg h]
    apply lookup_append_single_self_of_not
    cases hl : lookup m k with
    | none => rfl
    | some v' =>
      have : k ∈ m.map (·.1) := mem_keys_of_lookup_isSome (by rw [hl]; rfl)
      have : hasKey m k = true := by
        unfold hasKey
        rw [List.any_eq_true]
        rcases List.mem_map.mp this with ⟨e, hmem, hk⟩
        exact ⟨e, hmem, by simp [hk]⟩
      exact absurd this h

theorem lookup_set_ne (m : List (String × α)) (k k' : String) (v : α)
    (h : k' ≠ k) : lookup (set m k v) k' = lookup m k' := by
  unfold set
  by_cases hany : hasKey m k
  · rw [if_pos hany]
    exact lookup_mapReplace_ne m k k' v h
  · rw [if_neg hany]
    exact lookup_append_single_ne m k k' v h

end JsMap

namespace ConsultCache

/-- Embeds the cache entries of the server entry point:
`responseCache = Map<string, { response, timestamp, ttl }>`. -/
structure CacheEntry where
  response : String
  timestamp : Nat
  ttl : Nat
deriving Repr, DecidableEq

/-- The three mutually exclusive ways `handleConsultCodex` proceeds after
consulting the cache. -/
inductive ConsultAction where
  | serveCached (response : String)
  | invokeTool
  | errorStartWithPage1
deriving Repr, DecidableEq

/-- Embeds the cache-consultation branch of `handleConsultCodex`
(server entry point, session-manager variant, the code between the
`responseCache.get(cacheKey)` lookup and the call to `chunkResponse`):

    const cachedEntry = responseCache.get(cacheKey);
    if (cachedEntry && (Date.now() - cachedEntry.timestamp) < cachedEntry.ttl) \x7b
      fullResponse = cachedEntry.response;            // serveCached
    \x7d else \x7b
      if (params.page === 1 || !cachedEntry) \x7b
        ... sessionManager.sendCommand(...) ...       // invokeTool
      \x7d else \x7b
        return ... Please start with page 1 ...       // errorStartWithPage1
      \x7d
    \x7d

`Date.now()` is passed in as `now`. -/
def consultCacheAction (cache : List (String × CacheEntry)) (cacheKey : String)
    (page : Nat) (now : Nat) : ConsultAction :=
  match JsMap.lookup cache cacheKey with
  | some entry =>
    if now - entry.timestamp < entry.ttl then ConsultAction.serveCached entry.response
    else if page = 1 then ConsultAction.invokeTool
    else ConsultAction.errorStartWithPage1
  | none => ConsultAction.invokeTool

/-- Claim C1 (status `code_bug`, theorem evaluating the code at the
failing input): requesting page 2 of a fingerprint that was never stored
(empty cache) makes `handleConsultCodex` take the invoke branch — it
calls the external tool instead of returning the "start with page 1"
error; the error branch is reachable only when a cache entry exists but
has expired past its TTL (second conjunct, an entry stored at time 0 with
a 600000 ms TTL queried at time 700000). -/
theorem claim_c1_uncached_later_page_invokes_tool :
    consultCacheAction [] "fp" 2 0 = ConsultAction.invokeTool ∧
      consultCacheAction [("fp", { response := "r", timestamp := 0, ttl := 600000 })]
        "fp" 2 700000 = ConsultAction.errorStartWithPage1 := by
  constructor
  · rfl
  · rfl

end ConsultCache

namespace SessionMgr

/-- Embeds the `CodexCapabilities` interface of `codex-process-simple.ts`. -/
structure CodexCapabilities where
  supportsJson : Bool
  supportsStreaming : Bool
  supportsPlanApi : Bool
  version : String
deriving Repr, DecidableEq

/-- Embeds the session status union of `session-manager.ts`. -/
inductive SessionStatus where
  | starting
  | ready
  | error
  | restarting
deriving Repr, DecidableEq

/-- Embeds the `SessionInfo` interface of `session-manager.ts` (the
optional `processId` is never set by the exec-based process and is
omitted).  `new Date()` values are logical-clock readings. -/
structure SessionInfo where
  id : String
  workspaceId : String
  workspacePath : String
  created : Nat
  lastActive : Nat
  status : SessionStatus
  requestCount : Nat
  capabilities : Option CodexCapabilities
deriving Repr, DecidableEq

/-- The registry-visible state of one `CodexProcess`
(`codex-process-simple.ts`): the exec-based class holds no OS process,
only the ready flag and the detected capabilities. -/
structure CodexProcess where
  sessionId : String
  workingDirectory : String
  isReady : Bool
  capabilities : Option CodexCapabilities
deriving Repr, DecidableEq

/-- Embeds the `SessionManager` fields: the two JS `Map`s, the capacity
bound, and a logical clock supplying strictly increasing `new Date()`
readings (real time is non-decreasing; distinct readings model distinct
milliseconds). -/
structure ManagerState where
  sessions : List (String × CodexProcess)
  sessionInfo : List (String × SessionInfo)
  maxSessions : Nat
  clock : Nat
deriving Repr, DecidableEq

/-- Embeds `CodexProcess.kill()`: clears the ready flag; it cannot throw
(the exec-based class has nothing to kill), so the `try/catch` around it
in `destroySession` never fires. -/
def kill (p : CodexProcess) : CodexProcess := { p with isReady := false }

/-- Embeds `SessionManager.destroySession(sessionId)`: if the sessions
map has the id, kill the process and delete the id from both maps;
otherwise do nothing.  The killed process is removed from the registry in
the same step, so the registry state is fully described by the two
deletions. -/
def destroySession (st : ManagerState) (sessionId : String) : ManagerState :=
  match JsMap.lookup st.sessions sessionId with
  | some _ =>
    { st with
      sessions := JsMap.erase st.sessions sessionId
      sessionInfo := JsMap.erase st.sessionInfo sessionId }
  | none => st

/-- Embeds `SessionManager.getAllSessions()`:
`Array.from(this.sessionInfo.values()).sort((a, b) => b.lastActive - a.lastActive)`
— the metadata records sorted by `lastActive`, most recent first
(JS `Array.prototype.sort` is stable, as is `List.mergeSort`). -/
def getAllSessions (st : ManagerState) : List SessionInfo :=
  (st.sessionInfo.map (·.2)).mergeSort (fun a b => decide (b.lastActive ≤ a.lastActive))

/-- Embeds `SessionManager.cleanupOldestSession()`: destroy the last
element of `getAllSessions()` (the least recently active session), or do
nothing when no session exists. -/
def cleanupOldestSession (st : ManagerState) : ManagerState :=
  match (getAllSessions st).getLast? with
  | none => st
  | some oldest => destroySession st oldest.id

/-- Embeds `SessionManager.createSession(sessionId, workspacePath)`.
`generateWorkspaceId` reads the filesystem (git metadata), so it is
passed in as a function; the outcome of the awaited external
`process.start()` is passed in as `startOutcome` (`.ok caps` = start
succeeded and detected `caps`; `.error e` = the awaited promise
rejected).  Mirrors the source order: capacity check and eviction first,
then both maps are populated with the `starting` record, then
`process.start()` is awaited; on success the info record is marked
`ready` and the capabilities copied; on failure the id is deleted from
both maps and the error rethrown (the transient `status = 'error'`
mutation happens on the record that is deleted in the same step). -/
def createSession (st : ManagerState) (sessionId workspacePath : String)
    (generateWorkspaceId : String → String)
    (startOutcome : Except String CodexCapabilities) :
    Except String Unit × ManagerState :=
  let st1 := if st.sessions.length ≥ st.maxSessions then cleanupOldestSession st else st
  let workspaceId := generateWorkspaceId workspacePath
  let proc : CodexProcess :=
    { sessionId := sessionId
      workingDirectory := workspacePath
      isReady := false
      capabilities := none }
  let info : SessionInfo :=
    { id := sessionId
      workspaceId := workspaceId
      workspacePath := workspacePath
      created := st1.clock
      lastActive := st1.clock
      status := SessionStatus.starting
      requestCount := 0
      capabilities := none }
  let st2 : ManagerState :=
    { st1 with
      sessionInfo := JsMap.set st1.sessionInfo sessionId info
      sessions := JsMap.set st1.sessions sessionId proc
      clock := st1.clock + 1 }
  match startOutcome with
  | Except.ok caps =>
    let proc2 := { proc with isReady := true, capabilities := some caps }
    let info2 := { info with status := SessionStatus.ready, capabilities := some caps }
    (Except.ok (),
      { st2 with
        sessions := JsMap.set st2.sessions sessionId proc2
        sessionInfo := JsMap.set st2.sessionInfo sessionId info2 })
  | Except.error e =>
    (Except.error e,
      { st2 with
        sessions := JsMap.erase st2.sessions sessionId
        sessionInfo := JsMap.erase st2.sessionInfo sessionId })

/-- Claim C9 (status `confirmed`): `destroySession` is idempotent — a
second destroy of the same id leaves the registry exactly as the first
left it, and destroying a non-existent session id is a no-op that
completes without error (the embedded function is total). -/
theorem claim_c9_destroy_idempotent (st : ManagerState) (sessionId : String) :
    destroySession (destroySession st sessionId) sessionId = destroySession st sessionId ∧
      (JsMap.lookup st.sessions sessionId = none → destroySession st sessionId = st) := by
  constructor
  · cases hl : JsMap.lookup st.sessions sessionId with
    | none => simp only [destroySession, hl]
    | some p => simp only [destroySession, hl, JsMap.lookup_erase_self]
  · intro h
    simp only [destroySession, h]

/-- Witness for C9 at a concrete registry. -/
theorem claim_c9_witness :
    destroySession (destroySession { sessions := [], sessionInfo := [], maxSessions := 10, clock := 0 } "s")
        "s"
      = destroySession { sessions := [], sessionInfo := [], maxSessions := 10, clock := 0 } "s" ∧
      destroySession { sessions := [], sessionInfo := [], maxSessions := 10, clock := 0 } "s"
      = { sessions := [], sessionInfo := [], maxSessions := 10, clock := 0 } :=
  ⟨(claim_c9_destroy_idempotent
      { sessions := [], sessionInfo := [], maxSessions := 10, clock := 0 } "s").1,
    (claim_c9_destroy_idempotent
      { sessions := [], sessionInfo := [], maxSessions := 10, clock := 0 } "s").2 rfl⟩

/-- Claim C10 (status `confirmed`): when `process.start()` fails during
`createSession`, the error is rethrown to the caller and afterwards
neither the process map nor the metadata map contains an entry for the
session id — the failed creation leaves no trace of the session. -/
theorem claim_c10_failed_create_is_clean (st : ManagerState)
    (sessionId workspacePath : String) (generateWorkspaceId : String → String)
    (e : String) :
    (createSession st sessionId workspacePath generateWorkspaceId (Except.error e)).1
        = Except.error e ∧
      JsMap.lookup
        (createSession st sessionId workspacePath generateWorkspaceId
          (Except.error e)).2.sessions sessionId = none ∧
      JsMap.lookup
        (createSession st sessionId workspacePath generateWorkspaceId
          (Except.error e)).2.sessionInfo sessionId = none := by
  refine ⟨rfl, ?_, ?_⟩
  · exact JsMap.lookup_erase_self _ _
  · exact JsMap.lookup_erase_self _ _

end SessionMgr

namespace JsMap

theorem lookup_isSome_of_mem_keys {m : List (String × α)} {k : String}
    (h : k ∈ m.map (·.1)) : (lookup m k).isSome := by
  induction m with
  | nil => simp at h
  | cons e t ih =>
    rw [lookup]
    by_cases he : e.1 = k
    · rw [if_pos he]
      rfl
    · rw [if_neg he]
      simp only [List.map_cons, List.mem_cons] at h
      rcases h with h | h
      · exact absurd h.symm he
      · exact ih h

end JsMap

namespace SessionMgr

/-- Shared helper: when one record is strictly least-recently-active, it
is the last element of the list sorted by `lastActive` descending (the
order `getAllSessions` produces). -/
theorem mergeSort_getLast_eq_min (l : List SessionInfo) (oldest : SessionInfo)
    (hmem : oldest ∈ l)
    (hmin : ∀ x ∈ l, x ≠ oldest → oldest.lastActive < x.lastActive) :
    (l.mergeSort (fun a b => decide (b.lastActive ≤ a.lastActive))).getLast? = some oldest := by
  have hperm := List.mergeSort_perm l (fun a b => decide (b.lastActive ≤ a.lastActive))
  have hsorted := @List.sorted_mergeSort SessionInfo
    (fun a b : SessionInfo => decide (b.lastActive ≤ a.lastActive))
    (fun a b c hab hbc => by
      simp only [decide_eq_true_iff] at hab hbc ⊢
      omega)
    (fun a b => by
      simp only [Bool.or_eq_true, decide_eq_true_iff]
      omega)
    l
  have hne : l.mergeSort (fun a b => decide (b.lastActive ≤ a.lastActive)) ≠ [] := by
    intro h0
    rw [h0] at hperm
    rw [hperm.symm.eq_nil] at hmem
    simp at hmem
  obtain ⟨ys, g, hys⟩ :
      ∃ ys g, l.mergeSort (fun a b => decide (b.lastActive ≤ a.lastActive)) = ys ++ [g] :=
    ⟨_, _, (List.dropLast_concat_getLast hne).symm⟩
  rw [hys, List.getLast?_concat]
  have hgmem : g ∈ l := hperm.mem_iff.mp (by
    rw [hys]
    exact List.mem_append.mpr (Or.inr (by simp)))
  by_cases hgo : g = oldest
  · rw [hgo]
  · exfalso
    have h1 := hmin g hgmem hgo
    have homem : oldest ∈ ys := by
      have hmem2 := hperm.mem_iff.mpr hmem
      rw [hys] at hmem2
      rcases List.mem_append.mp hmem2 with h | h
      · exact h
      · simp only [List.mem_singleton] at h
        exact absurd h.symm hgo
    rw [hys] at hsorted
    have h2 := (List.pairwise_append.mp hsorted).2.2 oldest homem g (by simp)
    simp only [decide_eq_true_iff] at h2
    omega

/-- Claim C7 (status `confirmed`): when `createSession` runs while the
registry holds at least its maximum number of sessions, the strictly
least-recently-active session is destroyed (gone from both maps is shown
for the process map; the metadata map is erased in the same step) before
the new session is admitted, and the new session is present afterwards.
The well-formedness hypotheses state the invariants the source maintains:
every metadata record is stored under its own id, both maps hold the same
keys, and `lastActive` readings are strictly ordered (distinct
milliseconds of the logical clock). -/
theorem claim_c7_capacity_evicts_least_recently_active (st : ManagerState)
    (newId workspacePath : String) (generateWorkspaceId : String → String)
    (caps : CodexCapabilities) (oldest : SessionInfo)
    (hid : ∀ p ∈ st.sessionInfo, p.2.id = p.1)
    (hkeys : st.sessions.map (·.1) = st.sessionInfo.map (·.1))
    (hcap : st.maxSessions ≤ st.sessions.length)
    (hmem : oldest ∈ st.sessionInfo.map (·.2))
    (hmin : ∀ x ∈ st.sessionInfo.map (·.2), x ≠ oldest →
      oldest.lastActive < x.lastActive)
    (hne : oldest.id ≠ newId) :
    JsMap.lookup
        (createSession st newId workspacePath generateWorkspaceId
          (Except.ok caps)).2.sessions oldest.id = none ∧
      (JsMap.lookup
        (createSession st newId workspacePath generateWorkspaceId
          (Except.ok caps)).2.sessions newId).isSome := by
  have hgl : (getAllSessions st).getLast? = some oldest := by
    unfold getAllSessions
    exact mergeSort_getLast_eq_min _ oldest hmem hmin
  have hcl : cleanupOldestSession st
      = { st with
          sessions := JsMap.erase st.sessions oldest.id
          sessionInfo := JsMap.erase st.sessionInfo oldest.id } := by
    unfold cleanupOldestSession
    rw [hgl]
    have hsome : (JsMap.lookup st.sessions oldest.id).isSome := by
      apply JsMap.lookup_isSome_of_mem_keys
      rw [hkeys]
      rcases List.mem_map.mp hmem with ⟨p, hp, hpe⟩
      exact List.mem_map.mpr ⟨p, hp, by rw [← (hid p hp), hpe]⟩
    obtain ⟨pv, hpv⟩ := Option.isSome_iff_exists.mp hsome
    simp only [destroySession, hpv]
  simp only [createSession, ge_iff_le, if_pos hcap, hcl]
  constructor
  · rw [JsMap.lookup_set_ne _ _ _ _ hne, JsMap.lookup_set_ne _ _ _ _ hne,
      JsMap.lookup_erase_self]
  · rw [JsMap.lookup_set_self]
    rfl

/-- Concrete capability record for the C7 scenario. -/
def demoCaps : CodexCapabilities :=
  { supportsJson := false
    supportsStreaming := false
    supportsPlanApi := false
    version := "v0" }

/-- Empty registry with capacity 2 for the C7 scenario. -/
def demoState0 : ManagerState :=
  { sessions := [], sessionInfo := [], maxSessions := 2, clock := 0 }

/-- Registry after creating sessions `a` then `b` (both starts succeed). -/
def demoStateAB : ManagerState :=
  (createSession
    (createSession demoState0 "a" "/w" (fun p => p) (Except.ok demoCaps)).2
    "b" "/w" (fun p => p) (Except.ok demoCaps)).2

/-- The metadata record of session `a` inside `demoStateAB`. -/
def demoInfoA : SessionInfo :=
  { id := "a"
    workspaceId := "/w"
    workspacePath := "/w"
    created := 0
    lastActive := 0
    status := SessionStatus.ready
    requestCount := 0
    capabilities := some demoCaps }

/-- Witness for C7: capacity 2, sessions `a`, `b`, then `c` — `a` is
evicted and `c` admitted. -/
theorem claim_c7_witness :
    JsMap.lookup
        (createSession demoStateAB "c" "/w" (fun p => p)
          (Except.ok demoCaps)).2.sessions "a" = none ∧
      (JsMap.lookup
        (createSession demoStateAB "c" "/w" (fun p => p)
          (Except.ok demoCaps)).2.sessions "c").isSome :=
  claim_c7_capacity_evicts_least_recently_active demoStateAB "c" "/w" (fun p => p)
    demoCaps demoInfoA (by decide) (by decide) (by decide) (by decide) (by decide)
    (by decide)

end SessionMgr

namespace ProcSend

/-- Event-loop state of one session's `CodexProcess`
(`codex-process-simple.ts`) as seen by `send`: the class fields relevant
to dispatch are only `isReady`; `inFlight` is the observational count of
`send` calls currently suspended on `await execAsync(...)` (between
dispatching the external command and receiving its result).  The class
has no queue field, no current-command marker and no lock, and
`SessionManager.sendCommand` (`session-manager.ts`) invokes
`process.send(command)` directly, so nothing in the source constrains
dispatch beyond the `isReady` check. -/
structure SendState where
  isReady : Bool
  inFlight : Nat
deriving Repr, DecidableEq

/-- One event-loop step of the embedded `send` path.  `dispatch` is the
synchronous prefix of `send` up to `await execAsync` (guarded only by the
`isReady` check — with `isReady = false` the call throws instead);
`complete` is the resumption when the external invocation settles.  Both
are atomic in the JS event loop; between them any other caller may
run. -/
inductive SendStep : SendState → SendState → Prop
  | dispatch (s : SendState) (h : s.isReady = true) :
      SendStep s { isReady := s.isReady, inFlight := s.inFlight + 1 }
  | complete (s : SendState) (h : 0 < s.inFlight) :
      SendStep s { isReady := s.isReady, inFlight := s.inFlight - 1 }

/-- Claim C2 counterexample: from a freshly started session (ready, no
in-flight command), a state with two external invocations in flight at
the same instant is reachable — two `send` callers both pass the
`isReady` check and both reach `await execAsync` before either completes.
This refutes "at most one command executes against the session's handle
at any instant". -/
theorem claim_c2_counterexample :
    ¬ (∀ s : SendState,
        Relation.ReflTransGen SendStep { isReady := true, inFlight := 0 } s →
          s.inFlight ≤ 1) := by
  intro h
  have s1 : SendStep { isReady := true, inFlight := 0 } { isReady := true, inFlight := 1 } :=
    SendStep.dispatch { isReady := true, inFlight := 0 } rfl
  have s2 : SendStep { isReady := true, inFlight := 1 } { isReady := true, inFlight := 2 } :=
    SendStep.dispatch { isReady := true, inFlight := 1 } rfl
  have hreach : Relation.ReflTransGen SendStep { isReady := true, inFlight := 0 }
      { isReady := true, inFlight := 2 } :=
    Relation.ReflTransGen.tail (Relation.ReflTransGen.single s1) s2
  have h2 := h _ hreach
  simp only at h2
  omega

/-- Claim C2 (status `corrected`, amended): commands on the same session
are not queued — each `send` dispatches to the external tool immediately
once the session is ready, so any number of commands can be in flight
against one session simultaneously (first conjunct: every in-flight count
is reachable), and the only gate on dispatching is the ready flag (second
conjunct: a step that adds an in-flight command can only start from a
ready state). -/
theorem claim_c2_no_per_session_serialization :
    (∀ n : Nat,
      Relation.ReflTransGen SendStep { isReady := true, inFlight := 0 }
        { isReady := true, inFlight := n }) ∧
    (∀ s t : SendState, SendStep s t → s.inFlight < t.inFlight → s.isReady = true) := by
  constructor
  · intro n
    induction n with
    | zero => exact Relation.ReflTransGen.refl
    | succ k ih =>
      exact Relation.ReflTransGen.tail ih
        (SendStep.dispatch { isReady := true, inFlight := k } rfl)
  · intro s t hstep hlt
    cases hstep with
    | dispatch h => exact h
    | complete h =>
      simp only at hlt
      omega

/-- Witness for C2's amended theorem at concrete states. -/
theorem claim_c2_witness :
    Relation.ReflTransGen SendStep { isReady := true, inFlight := 0 }
      { isReady := true, inFlight := 3 } :=
  claim_c2_no_per_session_serialization.1 3

end ProcSend

namespace ProcRestart

/-- Embeds `detectCapabilities()` of `codex-process-simple.ts`.  The
`codex --version` probe is an external call, supplied as an oracle
(`some version` = the probe succeeded with that output; `none` = it
threw).  Either way the method assigns a capability record and never
throws: the catch branch assigns the all-false fallback with version
"unknown". -/
def detectCapabilities (probe : Option String) : SessionMgr.CodexCapabilities :=
  match probe with
  | some version =>
    { supportsJson := false
      supportsStreaming := false
      supportsPlanApi := false
      version := version }
  | none =>
    { supportsJson := false
      supportsStreaming := false
      supportsPlanApi := false
      version := "unknown" }

/-- Embeds `start()` of `codex-process-simple.ts`: await
`detectCapabilities` (which never throws, so the rethrow in `start`'s
catch is dead), then set the ready flag. -/
def start (probe : Option String) (p : SessionMgr.CodexProcess) : SessionMgr.CodexProcess :=
  { p with capabilities := some (detectCapabilities probe), isReady := true }

/-- A restart history: the process state plus ghost instrumentation that
the claim speaks about but the class does not track — the number of
`restart()` calls completed so far (`restartTally`; the class keeps no
restart counter) and the backoff delays inserted between tearing the old
state down and re-running `start` (`delays`; the method body
`this.isReady = false; await this.start();` contains no timer, so each
restart records a delay of 0 ms). -/
structure RestartRun where
  proc : SessionMgr.CodexProcess
  restartTally : Nat
  delays : List Nat
deriving Repr, DecidableEq

/-- Embeds `restart()` of `codex-process-simple.ts` (the exec-based
`codex-process.ts` variant is identical): reset the ready flag and
immediately re-run `start` — no backoff wait, no counter check, no
failure path. -/
def restart (probe : Option String) (r : RestartRun) : RestartRun :=
  { proc := start probe { r.proc with isReady := false }
    restartTally := r.restartTally + 1
    delays := r.delays ++ [0] }

/-- A started process for the concrete restart runs. -/
def demoProc : SessionMgr.CodexProcess :=
  { sessionId := "s"
    workingDirectory := "/w"
    isReady := true
    capabilities := some (detectCapabilities (some "v1")) }

/-- Claim C6 counterexample: four consecutive restarts of one handle all
succeed, ending ready, and the delays inserted between termination and
re-start are `[0, 0, 0, 0]`.  Under the claim — with the repository's
only declared restart policy constants (`maxRestarts = 3`, base 1000 ms,
cap 10000 ms, found solely in an unreferenced spawn-based process
variant) — the delays would be `[1000, 2000, 4000]` and the fourth
restart would fail fast; the wired code waits 0 ms, keeps no count, and
never fails. -/
theorem claim_c6_counterexample :
    ((restart (some "v1"))^[4] { proc := demoProc, restartTally := 0, delays := [] }).proc.isReady
        = true ∧
      ((restart (some "v1"))^[4]
        { proc := demoProc, restartTally := 0, delays := [] }).restartTally = 4 ∧
      ((restart (some "v1"))^[4]
        { proc := demoProc, restartTally := 0, delays := [] }).delays = [0, 0, 0, 0] := by
  refine ⟨rfl, rfl, rfl⟩

/-- Claim C6 (status `corrected`, amended): `restart` resets the ready
flag and immediately re-runs `start` (re-probing capabilities); no
backoff delay is inserted (every recorded delay is 0), no restart counter
or `maxRestarts` bound exists in the class, so any number of consecutive
restarts succeeds and leaves the handle ready — restart never fails
fast. -/
theorem claim_c6_restart_no_backoff_no_cap (probe : Option String) (r : RestartRun)
    (n : Nat) (hn : 1 ≤ n) :
    ((restart probe)^[n] r).proc.isReady = true ∧
      ((restart probe)^[n] r).restartTally = r.restartTally + n ∧
      ((restart probe)^[n] r).delays = r.delays ++ List.replicate n 0 := by
  induction n, hn using Nat.le_induction with
  | base =>
    refine ⟨rfl, rfl, ?_⟩
    simp [restart]
  | succ k hk ih =>
    obtain ⟨h1, h2, h3⟩ := ih
    rw [Function.iterate_succ_apply']
    refine ⟨rfl, ?_, ?_⟩
    · simp only [restart]
      rw [h2]
      omega
    · simp only [restart]
      rw [h3, List.append_assoc, ← List.replicate_succ']

/-- Witness for C6's amended theorem: two consecutive restarts of a
started handle. -/
theorem claim_c6_witness :
    ((restart (some "v1"))^[2]
        { proc := demoProc, restartTally := 0, delays := [] }).proc.isReady = true ∧
      ((restart (some "v1"))^[2]
        { proc := demoProc, restartTally := 0, delays := [] }).restartTally = 0 + 2 ∧
      ((restart (some "v1"))^[2]
        { proc := demoProc, restartTally := 0, delays := [] }).delays
        = [] ++ List.replicate 2 0 :=
  claim_c6_restart_no_backoff_no_cap (some "v1")
    { proc := demoProc, restartTally := 0, delays := [] } 2 (by norm_num)

end ProcRestart
